import Mathlib

/-!
Verification of the ipfs-embed core against its natural-language
specification.  The public facade (src/src/lib.rs) and the CLI front end
(src/bin/src/main.rs) are embedded directly from the source.  The storage
engine behind the facade (the db module: StorageService, Batch, the GC
sweeper and the missing-blocks oracle) is not part of the provided sources,
so those operations are modelled from the specification, as marked on each
definition.
-/

namespace IpfsEmbed

/-- A content identifier: a codec tag plus a multihash.  The multihash is
modelled as an injective digest of the payload bytes (collision freeness of
the hash is assumed by the system), so it is represented by the byte list
itself. -/
structure Cid where
  codec : Nat
  hash : List Nat
deriving DecidableEq, Repr

/-- A block: a CID together with its payload bytes.  The data-model
invariant multihash(bytes) = cid.multihash becomes the proposition wf. -/
structure Block where
  cid : Cid
  data : List Nat
deriving DecidableEq, Repr

/-- The block invariant: the bytes hash to the multihash of the CID. -/
def Block.wf (b : Block) : Prop := b.cid.hash = b.data

/-- First-match association-list lookup, the model of a KV table read. -/
def lookupA {κ α : Type} [DecidableEq κ] : List (κ × α) → κ → Option α
  | [], _ => none
  | (k, v) :: rest, c => if k = c then some v else lookupA rest c

/-- Remove every entry for a key, the model of a KV table delete. -/
def eraseKey {κ α : Type} [DecidableEq κ] (x : κ) : List (κ × α) → List (κ × α)
  | [] => []
  | p :: rest => if p.1 = x then eraseKey x rest else p :: eraseKey x rest

/-- Counter read with default zero. -/
def getCount (l : List (Cid × Nat)) (c : Cid) : Nat := (lookupA l c).getD 0

/-- Counter write. -/
def setCount (l : List (Cid × Nat)) (c : Cid) (n : Nat) : List (Cid × Nat) :=
  (c, n) :: eraseKey c l

/-- Counter increment. -/
def bumpCount (l : List (Cid × Nat)) (c : Cid) : List (Cid × Nat) :=
  setCount l c (getCount l c + 1)

/-- Counter decrement. -/
def dropCount (l : List (Cid × Nat)) (c : Cid) : List (Cid × Nat) :=
  setCount l c (getCount l c - 1)

/-- Modelled from the spec: the persisted state of the storage engine
(section 6): the blocks table, the reference index, the per-CID referrer
and pin counters, the public flags, the alias table, the registry of
temp-pin root sets, the cache eviction order and the configured cache
cap.  The db module holding this state is not under src. -/
structure StoreState where
  blocks : List (Cid × List Nat)
  refs : List (Cid × List Cid)
  referrers : List (Cid × Nat)
  pins : List (Cid × Nat)
  publicCids : List Cid
  aliases : List (List Nat × Cid)
  tempPins : List (List Cid)
  cacheOrder : List Cid
  cacheCap : Nat
deriving DecidableEq, Repr

/-- The empty store. -/
def emptyStore : StoreState :=
  { blocks := [], refs := [], referrers := [], pins := [], publicCids := []
  , aliases := [], tempPins := [], cacheOrder := [], cacheCap := 0 }

/-- Modelled from the spec: StorageService.contains — membership in the
blocks table. -/
def containsS (s : StoreState) (c : Cid) : Bool := (lookupA s.blocks c).isSome

/-- Modelled from the spec: StorageService.get — read the bytes of a block
from the blocks table. -/
def getS (s : StoreState) (c : Cid) : Option (List Nat) := lookupA s.blocks c

/-- Pin counter of a CID. -/
def pinsOf (s : StoreState) (c : Cid) : Nat := getCount s.pins c

/-- Referrer counter of a CID. -/
def referrersOf (s : StoreState) (c : Cid) : Nat := getCount s.referrers c

/-- Children of a CID according to the persisted reference index; empty
when no refs entry exists. -/
def childrenOf (s : StoreState) (c : Cid) : List Cid := (lookupA s.refs c).getD []

/-- Modelled from the spec: StorageService.insert, section 4.1.  If the CID
is already present the call is an idempotent no-op; otherwise the
ReferenceExtractor (the external codec hook, passed as the parameter ex)
is invoked, the children are persisted in the reference index, each child
referrer counter is incremented, the bytes are recorded and the block is
appended to the cache order. -/
def insertS (ex : Cid → List Nat → List Cid) (s : StoreState) (b : Block) : StoreState :=
  if containsS s b.cid then s
  else
    let children := ex b.cid b.data
    { s with
      refs := (b.cid, children) :: s.refs
    , referrers := children.foldl bumpCount s.referrers
    , blocks := (b.cid, b.data) :: s.blocks
    , cacheOrder := s.cacheOrder ++ [b.cid] }

/-- Total number of child entries in the reference index; an upper bound
on the stack pushes of any closure traversal, used as traversal fuel. -/
def totalChildren (s : StoreState) : Nat :=
  s.refs.foldl (fun acc p => acc + p.2.length) 0

/-- Fuel sufficient for a depth-first traversal of the stored DAG. -/
def gasFor (s : StoreState) : Nat := totalChildren s + 2

/-- Modelled from the spec: the iterative depth-first closure of
section 4.1 underlying missing-blocks: visit the stack head; a locally
present CID recurses into its reference entry; an absent CID is appended
to the output; no CID is visited twice. -/
def missingAux (s : StoreState) : Nat → List Cid → List Cid → List Cid → List Cid
  | 0, _, _, acc => acc
  | Nat.succ fuel, visited, stack, acc =>
    match stack with
    | [] => acc
    | c :: rest =>
      if c ∈ visited then missingAux s fuel visited rest acc
      else if containsS s c then
        missingAux s fuel (c :: visited) (childrenOf s c ++ rest) acc
      else missingAux s fuel (c :: visited) rest (acc ++ [c])

/-- Modelled from the spec: StorageService.missing-blocks, section 4.1 —
the not-yet-local transitive closure of a root, in first-discovery
depth-first order. -/
def missingBlocks (s : StoreState) (root : Cid) : List Cid :=
  missingAux s (gasFor s) [] [root] []

/-- Depth-first closure of a start list through locally present blocks;
absent CIDs are included but not descended into.  Used for temp-pin
closures and root reachability. -/
def dfsAux (s : StoreState) : Nat → List Cid → List Cid → List Cid
  | 0, visited, _ => visited
  | Nat.succ fuel, visited, stack =>
    match stack with
    | [] => visited
    | c :: rest =>
      if c ∈ visited then dfsAux s fuel visited rest
      else if containsS s c then dfsAux s fuel (visited ++ [c]) (childrenOf s c ++ rest)
      else dfsAux s fuel (visited ++ [c]) rest

/-- Executable reachability: target lies in the depth-first closure of
start through stored blocks. -/
def reachesB (s : StoreState) (start target : Cid) : Bool :=
  target ∈ dfsAux s (gasFor s) [] [start]

/-- Membership in the closure of some temp-pin root set (section 4.6
step 2). -/
def inTempPinClosureB (s : StoreState) (c : Cid) : Bool :=
  s.tempPins.any (fun pinSet => pinSet.any (fun r => reachesB s r c))

/-- The root set: alias roots and temp-pin members (section 3). -/
def rootsOf (s : StoreState) : List Cid :=
  s.aliases.map Prod.snd ++ s.tempPins.flatten

/-- The liveness definition of section 3 of the spec: pins positive, or
referrers positive and transitively reachable from a root. -/
def liveSpecB (s : StoreState) (c : Cid) : Bool :=
  decide (0 < pinsOf s c) ||
    (decide (0 < referrersOf s c) && (rootsOf s).any (fun r => reachesB s r c))

/-- Number of non-pinned resident blocks, the size compared against the
cache cap (section 6: cache-size bounds the non-pinned blocks). -/
def nonPinnedCount (s : StoreState) : Nat :=
  (s.blocks.filter (fun p => pinsOf s p.1 == 0)).length

/-- Modelled from the spec: the GC eviction candidate set of section 4.6
step 2 — resident blocks with zero pins, zero referrers and membership in
no temp-pin closure, taken in cache order. -/
def candidateList (s : StoreState) : List Cid :=
  s.cacheOrder.filter (fun c =>
    containsS s c && (pinsOf s c == 0) && (referrersOf s c == 0)
      && !(inTempPinClosureB s c))

/-- Modelled from the spec: evicting one CID, section 4.6 step 4 — remove
the block bytes, remove its refs entry, decrement the referrer counter of
each child, remove its cache-order entry. -/
def evictOne (s : StoreState) (c : Cid) : StoreState :=
  let children := childrenOf s c
  { s with
    blocks := eraseKey c s.blocks
  , refs := eraseKey c s.refs
  , referrers := children.foldl dropCount s.referrers
  , cacheOrder := s.cacheOrder.filter (fun x => !(x == c)) }

/-- Modelled from the spec: the sweep loop of section 4.6 step 3 — stop
as soon as the resident size is within the cap, otherwise evict the
candidates in cache order. -/
def sweepLoop (cap : Nat) : StoreState → List Cid → StoreState
  | s, [] => s
  | s, c :: rest =>
    if nonPinnedCount s ≤ cap then s else sweepLoop cap (evictOne s c) rest

/-- Modelled from the spec: one explicit GC run (Ipfs.evict runs steps 2-5
of section 4.6 once): compute the candidate set, then sweep. -/
def storageEvict (s : StoreState) : StoreState :=
  sweepLoop s.cacheCap s (candidateList s)

/-- Errors surfaced by the facade (section 7); the fetch and get paths of
lib.rs produce BlockNotFound, and a failed exchange request surfaces as a
network error. -/
inductive IpfsError where
  | blockNotFound (c : Cid)
  | network (code : Nat)
deriving DecidableEq, Repr

/-- Log severities of the tracing calls appearing in the facade. -/
inductive LogLevel where
  | error
  | warn
  | trace
deriving DecidableEq, Repr

/-- A peer identifier; opaque to the core. -/
abbrev PeerId := Nat

/-- Ipfs.contains (src/src/lib.rs lines 346-349): delegate to the storage
service. -/
def ipfsContains (s : StoreState) (c : Cid) : Bool := containsS s c

/-- Ipfs.get (src/src/lib.rs lines 351-359): read from the storage
service; on some data build the block unchecked from the requested CID
and the stored bytes, on none return BlockNotFound. -/
def ipfsGet (s : StoreState) (c : Cid) : Except IpfsError Block :=
  match getS s c with
  | some d => Except.ok { cid := c, data := d }
  | none => Except.error (IpfsError.blockNotFound c)

/-- Ipfs.insert (src/src/lib.rs lines 379-383): delegate to the storage
service. -/
def ipfsInsert (ex : Cid → List Nat → List Cid) (s : StoreState) (b : Block) : StoreState :=
  insertS ex s b

/-- Decidable equality of Except values over decidable components. -/
def exceptEqDec {ε α : Type} [DecidableEq ε] [DecidableEq α] :
    (a b : Except ε α) → Decidable (a = b)
  | Except.ok x, Except.ok y =>
    if h : x = y then Decidable.isTrue (by rw [h]) else Decidable.isFalse (by simp [h])
  | Except.error x, Except.error y =>
    if h : x = y then Decidable.isTrue (by rw [h]) else Decidable.isFalse (by simp [h])
  | Except.ok _, Except.error _ => Decidable.isFalse (by simp)
  | Except.error _, Except.ok _ => Decidable.isFalse (by simp)

instance {ε α : Type} [DecidableEq ε] [DecidableEq α] : DecidableEq (Except ε α) :=
  exceptEqDec

/-- Outcome of one Ipfs.fetch call: the returned result, whether the
network was contacted, and the log lines emitted. -/
structure FetchOut where
  result : Except IpfsError Block
  networkCalled : Bool
  logs : List (LogLevel × String)
deriving DecidableEq, Repr

/-- The message logged by Ipfs.fetch when the block disappears between
the exchange completing and the local read. -/
def evictedMsg : String :=
  "block evicted too soon. use a temp pin to keep the block around."

/-- Ipfs.fetch (src/src/lib.rs lines 361-377): try the local store first;
if absent and the provider list is non-empty, run the network request
(modelled by net, the external BlockFetch, which transforms the store
state or fails) and read the store again; if the block is still absent,
log at error level and return BlockNotFound.  With no providers the
network is never contacted. -/
def ipfsFetch (net : StoreState → Except Nat StoreState) (s : StoreState)
    (c : Cid) (providers : List PeerId) : FetchOut :=
  match getS s c with
  | some d => { result := Except.ok { cid := c, data := d }, networkCalled := false, logs := [] }
  | none =>
    if providers.isEmpty then
      { result := Except.error (IpfsError.blockNotFound c), networkCalled := false, logs := [] }
    else
      match net s with
      | Except.error e =>
        { result := Except.error (IpfsError.network e), networkCalled := true, logs := [] }
      | Except.ok s2 =>
        match getS s2 c with
        | some d =>
          { result := Except.ok { cid := c, data := d }, networkCalled := true, logs := [] }
        | none =>
          { result := Except.error (IpfsError.blockNotFound c), networkCalled := true
          , logs := [(LogLevel.error, evictedMsg)] }

/-- The arguments Ipfs.sync hands to NetworkService.sync: the root CID,
the providers and the initially missing set. -/
structure SyncInvocation where
  cid : Cid
  providers : List PeerId
  missing : List Cid
deriving DecidableEq, Repr

/-- Ipfs.sync (src/src/lib.rs lines 392-400): the facade asks the storage
layer for the missing blocks of the root; the Result is collapsed with
ok() and unwrap-or-default, so an Err from the storage layer becomes the
empty missing set, and the network sync query is started unconditionally.
The storage-layer result is the mbResult parameter. -/
def ipfsSync (c : Cid) (providers : List PeerId)
    (mbResult : Except String (List Cid)) : SyncInvocation :=
  { cid := c, providers := providers, missing := mbResult.toOption.getD [] }

/-- Transitive reachability through stored blocks: the root reaches
itself, and a reachable, locally present CID reaches each CID in its
reference entry. -/
inductive Reaches (s : StoreState) (root : Cid) : Cid → Prop where
  | refl : Reaches s root root
  | step {c c2 : Cid} : Reaches s root c → containsS s c = true →
      c2 ∈ childrenOf s c → Reaches s root c2

/-- The success condition of a sync query, modelled from the spec
(section 4.8 step 4): the query completes successfully when every CID
transitively reachable from the root is locally present. -/
def syncSuccess (s : StoreState) (root : Cid) : Prop :=
  ∀ c, Reaches s root c → containsS s c = true

/-- BitswapStorage.contains (src/src/lib.rs lines 119-121): delegate to
the storage service. -/
def bitswapContains (s : StoreState) (c : Cid) : Bool := containsS s c

/-- BitswapStorage.get (src/src/lib.rs lines 123-125): delegate to the
storage service. -/
def bitswapGet (s : StoreState) (c : Cid) : Option (List Nat) := getS s c

/-- BitswapStorage.insert (src/src/lib.rs lines 127-129): delegate a
clone of the block to the storage service. -/
def bitswapInsert (ex : Cid → List Nat → List Cid) (s : StoreState) (b : Block) : StoreState :=
  insertS ex s b

/-- BitswapStorage.missing-blocks (src/src/lib.rs lines 131-133):
delegate to the storage service. -/
def bitswapMissing (s : StoreState) (c : Cid) : List Cid := missingBlocks s c

/-- One operation of a batch body: a store write or an early error return
(the bail in tests::test-batch-write). -/
inductive BatchOp where
  | insertOp (b : Block)
  | abortOp (msg : String)
deriving DecidableEq, Repr

/-- Ipfs.batch-ops over StorageService.rw, modelled from the contract
documented in src/src/lib.rs lines 429-435 (the batching concerns only
the CacheTracker, it implies no atomicity guarantees) and pinned by
tests::test-batch-write (lines 941-965), which asserts that a block
inserted before the error of the batch body remains visible afterwards:
writes apply to the store as they are issued; an error stops the body and
is returned, but the writes already issued are kept.  The rw
implementation itself lives in the db module, which is not under src. -/
def runBatch (ex : Cid → List Nat → List Cid) : StoreState → List BatchOp → StoreState × Option String
  | s, [] => (s, none)
  | s, BatchOp.insertOp b :: rest => runBatch ex (insertS ex s b) rest
  | s, BatchOp.abortOp m :: _ => (s, some m)

/-- Per-block metadata as read by the CLI: pin count, referrer count and
the public flag (src/bin/src/main.rs, Metadata). -/
structure Metadata where
  pins : Nat
  referers : Nat
  isPublic : Bool
deriving DecidableEq, Repr

/-- The metadata the store reports for a CID. -/
def metadataOf (s : StoreState) (c : Cid) : Metadata :=
  { pins := pinsOf s c, referers := referrersOf s c
  , isPublic := decide (c ∈ s.publicCids) }

/-- The per-block print decision of the CLI ls command
(src/bin/src/main.rs lines 21-39), embedded literally: a block is pinned
when its pin count is positive, live when its referrer count or pin count
is positive, the all flag is forced when no filter flag is given, and the
block is printed when any selected category matches. -/
def lsFilter (m : Metadata) (pinned live dead allFlag : Bool) : Bool :=
  let isPinned := decide (0 < m.pins)
  let isLive := decide (0 < m.referers) || decide (0 < m.pins)
  let allF := allFlag || (!pinned && !live && !dead)
  allF || (pinned && isPinned) || (live && isLive) || (dead && !isLive)

/-- The CIDs the CLI ls command prints, in store iteration order. -/
def lsCids (s : StoreState) (pinned live dead allFlag : Bool) : List Cid :=
  (s.blocks.map Prod.fst).filter (fun c => lsFilter (metadataOf s c) pinned live dead allFlag)

/-- The lines the CLI ls command prints: pins, refs, public flag and CID
per selected block (print-metadata in src/bin/src/main.rs). -/
def lsLines (s : StoreState) (pinned live dead allFlag : Bool) : List (Nat × Nat × Bool × Cid) :=
  (lsCids s pinned live dead allFlag).map (fun c =>
    let m := metadataOf s c
    (m.pins, m.referers, m.isPublic, c))

/-- Hash consistency of a store: any stored bytes agree with the digest
in their CID.  This is the data-model invariant of section 3 (multihash
of the bytes equals the multihash of the CID) for every resident block. -/
def HashConsistent (s : StoreState) : Prop :=
  ∀ c d, getS s c = some d → d = c.hash

/-- A reference extractor that finds no children (the raw codec). -/
def ex0 : Cid → List Nat → List Cid := fun _ _ => []

/-- Concrete CIDs for witnesses and counterexamples. -/
def cA : Cid := { codec := 0, hash := [0] }

/-- Second concrete CID. -/
def cB : Cid := { codec := 0, hash := [1] }

/-- Third concrete CID. -/
def cC : Cid := { codec := 0, hash := [2] }

/-- Fourth concrete CID. -/
def cD : Cid := { codec := 0, hash := [3] }

/-- Concrete blocks whose bytes match their CID digest. -/
def blkA : Block := { cid := cA, data := [0] }

/-- Second concrete block. -/
def blkB : Block := { cid := cB, data := [1] }

/-- Third concrete block. -/
def blkC : Block := { cid := cC, data := [2] }

/-- Fourth concrete block. -/
def blkD : Block := { cid := cD, data := [3] }

/-- An extractor under which the block of cA references cB (a DAG-CBOR
style link). -/
def exAB : Cid → List Nat → List Cid := fun c _ => if c = cA then [cB] else []

/-- A network operation that completes without delivering anything. -/
def net0 : StoreState → Except Nat StoreState := fun s => Except.ok s

/-- A network operation that deposits the block blkA into the store, the
way the exchange deposits fetched blocks through BitswapStorage. -/
def netInsA : StoreState → Except Nat StoreState := fun s => Except.ok (insertS ex0 s blkA)

/-- The store after the first committed batch of tests::test-batch-write:
blocks a and b inserted. -/
def sAB : StoreState := (runBatch ex0 emptyStore [BatchOp.insertOp blkA, BatchOp.insertOp blkB]).1

/-- The error message of the aborted batch in tests::test-batch-write. -/
def m0 : String := "nope!"

/-- The outcome of the aborted batch of tests::test-batch-write: insert
c, fail, then an unreachable insert of d. -/
def batchCxOut : StoreState × Option String :=
  runBatch ex0 sAB [BatchOp.insertOp blkC, BatchOp.abortOp m0, BatchOp.insertOp blkD]

/-- A store holding one unpinned, unreferenced block, eligible for
eviction under the zero cache cap. -/
def sX : StoreState := insertS ex0 emptyStore blkA

/-- A store with blocks A and B where A references B but neither is
reachable from any root: no alias and no temp pin exists. -/
def sRef : StoreState := insertS exAB (insertS exAB emptyStore blkB) blkA

/-- A store holding the single leaf block A, used as a completed sync. -/
def syncW : StoreState := insertS ex0 emptyStore blkA

end IpfsEmbed

namespace IpfsEmbed

/-- Looking a key up after erasing a different key reads the original
table. -/
theorem lookupA_eraseKey_ne {κ α : Type} [DecidableEq κ] {x c : κ} (h : c ≠ x) :
    ∀ l : List (κ × α), lookupA (eraseKey x l) c = lookupA l c := by
  intro l
  induction l with
  | nil => rfl
  | cons p rest ih =>
    obtain ⟨k, v⟩ := p
    by_cases hk : k = x
    · subst hk
      simp [eraseKey, lookupA, ih, Ne.symm h]
    · simp [eraseKey, hk, lookupA, ih]

/-- A block just inserted is contained. -/
theorem contains_insert (ex : Cid → List Nat → List Cid) (s : StoreState) (b : Block) :
    containsS (insertS ex s b) b.cid = true := by
  by_cases h : containsS s b.cid
  · simp [insertS, h]
  · unfold insertS
    rw [if_neg h]
    simp [containsS, lookupA]

/-- Insert preserves containment of any block. -/
theorem contains_insert_mono (ex : Cid → List Nat → List Cid) (s : StoreState)
    (b : Block) (c : Cid) (h : containsS s c = true) :
    containsS (insertS ex s b) c = true := by
  by_cases hb : containsS s b.cid
  · simpa [insertS, hb] using h
  · unfold insertS
    rw [if_neg hb]
    simp only [containsS, lookupA] at h ⊢
    split
    · rfl
    · exact h

/-- A fold of inserts preserves containment. -/
theorem contains_foldl_mono (ex : Cid → List Nat → List Cid) :
    ∀ (l : List Block) (s : StoreState) (c : Cid), containsS s c = true →
      containsS (l.foldl (insertS ex) s) c = true := by
  intro l
  induction l with
  | nil => intro s c h; exact h
  | cons hd tl ih =>
    intro s c h
    exact ih (insertS ex s hd) c (contains_insert_mono ex s hd c h)

/-- Every block of a fold of inserts is contained afterwards. -/
theorem contains_foldl_insert (ex : Cid → List Nat → List Cid) :
    ∀ (l : List Block) (s : StoreState) (b : Block), b ∈ l →
      containsS (l.foldl (insertS ex) s) b.cid = true := by
  intro l
  induction l with
  | nil => intro s b h; cases h
  | cons hd tl ih =>
    intro s b h
    rcases List.mem_cons.mp h with he | hm
    · subst he
      exact contains_foldl_mono ex tl (insertS ex s b) b.cid (contains_insert ex s b)
    · exact ih (insertS ex s hd) b hm

/-- C4: insert is idempotent: inserting a block twice leaves the store in
the state of a single insert, so the second insert neither re-extracts
references nor increments referrer counters again. -/
theorem insert_idempotent (ex : Cid → List Nat → List Cid) (s : StoreState) (b : Block) :
    insertS ex (insertS ex s b) b = insertS ex s b := by
  have h1 : containsS (insertS ex s b) b.cid = true := contains_insert ex s b
  conv_lhs => rw [insertS]
  simp [h1]

/-- C7: the BitswapStore contract is a pure pass-through: contains, get,
insert and missing-blocks of BitswapStorage return exactly what the
storage service returns on the same arguments. -/
theorem bitswap_passthrough (ex : Cid → List Nat → List Cid) (s : StoreState)
    (c : Cid) (b : Block) :
    bitswapContains s c = containsS s c ∧ bitswapGet s c = getS s c ∧
    bitswapInsert ex s b = insertS ex s b ∧ bitswapMissing s c = missingBlocks s c :=
  ⟨rfl, rfl, rfl, rfl⟩

/-- C9: when the storage layer reports an error from missing-blocks,
Ipfs.sync does not propagate it: the network sync query is started with
the empty missing set; a successful storage result is passed through. -/
theorem sync_swallows_storage_error (c : Cid) (ps : List PeerId) (e : String)
    (l : List Cid) :
    ipfsSync c ps (Except.error e) = { cid := c, providers := ps, missing := [] } ∧
    ipfsSync c ps (Except.ok l) = { cid := c, providers := ps, missing := l } :=
  ⟨rfl, rfl⟩

/-- C10: with the block absent and an empty provider list, fetch returns
BlockNotFound without contacting the network; and whenever the block is
locally present, fetch returns it without contacting the network. -/
theorem fetch_local_first (net : StoreState → Except Nat StoreState) (s : StoreState)
    (c : Cid) :
    (getS s c = none →
      ipfsFetch net s c [] =
        { result := Except.error (IpfsError.blockNotFound c)
        , networkCalled := false, logs := [] }) ∧
    (∀ d ps, getS s c = some d →
      ipfsFetch net s c ps =
        { result := Except.ok { cid := c, data := d }
        , networkCalled := false, logs := [] }) := by
  constructor
  · intro h
    simp [ipfsFetch, h]
  · intro d ps h
    simp [ipfsFetch, h]

/-- C10 witness: on the empty store with no providers the fetch of cA
fails without network contact, and with blkA stored the fetch of cA
succeeds without network contact even though a provider is given. -/
theorem fetch_local_first_w :
    ipfsFetch net0 emptyStore cA [] =
      { result := Except.error (IpfsError.blockNotFound cA)
      , networkCalled := false, logs := [] } ∧
    ipfsFetch net0 (insertS ex0 emptyStore blkA) cA [7] =
      { result := Except.ok { cid := cA, data := [0] }
      , networkCalled := false, logs := [] } :=
  ⟨(fetch_local_first net0 emptyStore cA).1 (by decide),
   (fetch_local_first net0 (insertS ex0 emptyStore blkA) cA).2 [0] [7] (by decide)⟩

/-- C3: round-trip — in a hash-consistent store, after insert of a block
whose bytes match its CID digest, get returns a block with exactly those
bytes and contains returns true. -/
theorem insert_roundtrip (ex : Cid → List Nat → List Cid) (s : StoreState) (b : Block)
    (hs : HashConsistent s) (hb : b.wf) :
    ipfsGet (ipfsInsert ex s b) b.cid = Except.ok b ∧
    ipfsContains (ipfsInsert ex s b) b.cid = true := by
  refine ⟨?_, contains_insert ex s b⟩
  by_cases h : containsS s b.cid
  · have hs2 : ipfsInsert ex s b = s := by simp [ipfsInsert, insertS, h]
    rw [hs2]
    have hd : ∃ d, getS s b.cid = some d := by
      simpa [containsS, getS, Option.isSome_iff_exists] using h
    obtain ⟨d, hd⟩ := hd
    have hdb : d = b.data := by
      have := hs b.cid d hd
      rw [this, hb]
    simp [ipfsGet, hd, hdb]
  · unfold ipfsInsert insertS
    rw [if_neg h]
    simp [ipfsGet, getS, lookupA]

/-- C3 witness: inserting the concrete leaf block blkA into the empty
store makes get return it and contains report true. -/
theorem insert_roundtrip_w :
    ipfsGet (ipfsInsert ex0 emptyStore blkA) blkA.cid = Except.ok blkA ∧
    ipfsContains (ipfsInsert ex0 emptyStore blkA) blkA.cid = true :=
  insert_roundtrip ex0 emptyStore blkA
    (fun c d hcd => by simp [getS, emptyStore, lookupA] at hcd)
    rfl

/-- C1 counterexample: the batch of tests::test-batch-write — insert c,
then return an error — does NOT roll back: afterwards the batch has
failed, yet c is visible to contains, alongside the previously committed
a and b, while d (whose insert came after the error) is absent.  This
refutes the claim that no write issued inside a failed batch is visible
to subsequent reads. -/
theorem batch_abort_write_visible_cx :
    batchCxOut.2 = some m0 ∧
    containsS batchCxOut.1 blkC.cid = true ∧
    containsS batchCxOut.1 blkD.cid = false ∧
    containsS batchCxOut.1 blkA.cid = true ∧
    containsS batchCxOut.1 blkB.cid = true := by
  refine ⟨rfl, ?_, ?_, ?_, ?_⟩ <;> decide

/-- C1 amended: when the batch body returns an error after issuing some
writes, the error is returned and the batch stops, but the writes already
issued remain applied to the store — each block inserted before the error
is still visible to subsequent contains reads (batching concerns only the
cache tracker and gives no atomicity). -/
theorem batch_error_keeps_writes (ex : Cid → List Nat → List Cid) (s : StoreState)
    (pre : List Block) (m : String) (post : List BatchOp) :
    runBatch ex s (pre.map BatchOp.insertOp ++ BatchOp.abortOp m :: post) =
      (pre.foldl (insertS ex) s, some m) ∧
    ∀ b ∈ pre, containsS (pre.foldl (insertS ex) s) b.cid = true := by
  constructor
  · induction pre generalizing s with
    | nil => rfl
    | cons hd tl ih => exact ih (insertS ex s hd)
  · intro b hb
    exact contains_foldl_insert ex pre s b hb

/-- C1 amended witness: the concrete aborted batch of
tests::test-batch-write keeps its insert of c. -/
theorem batch_error_keeps_writes_w :
    runBatch ex0 sAB ([blkC].map BatchOp.insertOp ++ BatchOp.abortOp m0 :: [BatchOp.insertOp blkD]) =
      ([blkC].foldl (insertS ex0) sAB, some m0) ∧
    containsS ([blkC].foldl (insertS ex0) sAB) blkC.cid = true := by
  have h := batch_error_keeps_writes ex0 sAB [blkC] m0 [BatchOp.insertOp blkD]
  exact ⟨h.1, h.2 blkC (by decide)⟩

/-- C2 counterexample: when the block is absent, a provider is given, the
network request completes and the block is still absent afterwards, fetch
does return BlockNotFound, but it logs at error level and emits no
warning-level message — refuting the claim that a warning is logged. -/
theorem fetch_warn_cx :
    (ipfsFetch net0 emptyStore cA [7]).result = Except.error (IpfsError.blockNotFound cA) ∧
    ¬ LogLevel.warn ∈ (ipfsFetch net0 emptyStore cA [7]).logs.map Prod.fst ∧
    (ipfsFetch net0 emptyStore cA [7]).logs.map Prod.fst = [LogLevel.error] := by
  refine ⟨by decide, by decide, by decide⟩

/-- C2 amended: for an absent block and a non-empty provider list, fetch
issues the network request and then reads the store: if the block arrived
it is returned, and if it is absent after the request completed (evicted
in between), fetch returns BlockNotFound and logs an error-level message
advising use of a temp pin — it never returns stale or partial data. -/
theorem fetch_network_then_read (net : StoreState → Except Nat StoreState)
    (s : StoreState) (c : Cid) (ps : List PeerId) (s2 : StoreState)
    (h0 : getS s c = none) (h1 : ps.isEmpty = false) (h2 : net s = Except.ok s2) :
    (∀ d, getS s2 c = some d →
      ipfsFetch net s c ps =
        { result := Except.ok { cid := c, data := d }
        , networkCalled := true, logs := [] }) ∧
    (getS s2 c = none →
      ipfsFetch net s c ps =
        { result := Except.error (IpfsError.blockNotFound c)
        , networkCalled := true
        , logs := [(LogLevel.error, evictedMsg)] }) := by
  constructor
  · intro d hd
    simp [ipfsFetch, h0, h1, h2, hd]
  · intro hn
    simp [ipfsFetch, h0, h1, h2, hn]

/-- C2 amended witness: on the empty store with one provider, a network
round that deposits blkA makes fetch return blkA; a network round that
delivers nothing makes fetch return BlockNotFound with the error-level
eviction message. -/
theorem fetch_network_then_read_w :
    ipfsFetch netInsA emptyStore cA [7] =
      { result := Except.ok { cid := cA, data := [0] }
      , networkCalled := true, logs := [] } ∧
    ipfsFetch net0 emptyStore cA [7] =
      { result := Except.error (IpfsError.blockNotFound cA)
      , networkCalled := true
      , logs := [(LogLevel.error, evictedMsg)] } :=
  ⟨(fetch_network_then_read netInsA emptyStore cA [7] (insertS ex0 emptyStore blkA)
      (by decide) (by decide) rfl).1 [0] (by decide),
   (fetch_network_then_read net0 emptyStore cA [7] emptyStore
      (by decide) (by decide) rfl).2 (by decide)⟩

/-- Evicting one CID leaves every other CID in the blocks table. -/
theorem containsS_evictOne_ne (s : StoreState) (x c : Cid) (h : c ≠ x) :
    containsS (evictOne s x) c = containsS s c := by
  simp only [containsS, evictOne]
  rw [lookupA_eraseKey_ne h]

/-- The sweep loop never removes a CID that is not in its worklist. -/
theorem sweepLoop_not_mem (cap : Nat) :
    ∀ (L : List Cid) (s : StoreState) (c : Cid), c ∉ L →
      containsS (sweepLoop cap s L) c = containsS s c := by
  intro L
  induction L with
  | nil => intro s c _; rfl
  | cons x rest ih =>
    intro s c h
    rw [sweepLoop]
    split
    · rfl
    · have hx : c ≠ x := fun he => h (he ▸ List.mem_cons_self x rest)
      rw [ih (evictOne s x) c (fun hm => h (List.mem_cons_of_mem x hm))]
      exact containsS_evictOne_ne s x c hx

/-- Membership in the candidate set yields the three eviction
conditions of section 4.6 step 2. -/
theorem mem_candidateList (s : StoreState) (c : Cid) (h : c ∈ candidateList s) :
    pinsOf s c = 0 ∧ referrersOf s c = 0 ∧ inTempPinClosureB s c = false := by
  have h2 := (List.mem_filter.mp h).2
  simp only [Bool.and_eq_true, beq_iff_eq, Bool.not_eq_true'] at h2
  exact ⟨h2.1.1.2, h2.1.2, h2.2⟩

/-- C5: GC safety — any block removed by an explicit evict run had zero
pins, zero referrers and membership in no temp-pin closure when the
candidate set was computed; in particular it was not live, so a block
with positive pins or a live referrer is never removed. -/
theorem gc_never_evicts_live (s : StoreState) (c : Cid)
    (h1 : containsS s c = true) (h2 : containsS (storageEvict s) c = false) :
    pinsOf s c = 0 ∧ referrersOf s c = 0 ∧ inTempPinClosureB s c = false ∧
    liveSpecB s c = false := by
  have hc : c ∈ candidateList s := by
    by_contra hn
    rw [storageEvict, sweepLoop_not_mem s.cacheCap (candidateList s) s c hn, h1] at h2
    exact Bool.noConfusion h2
  obtain ⟨hp, hr, ht⟩ := mem_candidateList s c hc
  refine ⟨hp, hr, ht, ?_⟩
  simp [liveSpecB, hp, hr]

/-- C5 witness: the store holding only the unprotected block blkA evicts
it under the zero cap, and indeed it had zero pins, zero referrers, no
temp-pin closure membership and was not live. -/
theorem gc_never_evicts_live_w :
    pinsOf sX cA = 0 ∧ referrersOf sX cA = 0 ∧ inTempPinClosureB sX cA = false ∧
    liveSpecB sX cA = false :=
  gc_never_evicts_live sX cA (by decide) (by decide)

/-- When every CID reachable from the root is locally present, the
missing-blocks traversal appends nothing to its accumulator. -/
theorem missingAux_no_absent (s : StoreState) (root : Cid)
    (hall : ∀ c, Reaches s root c → containsS s c = true) :
    ∀ (fuel : Nat) (visited stack acc : List Cid),
      (∀ c ∈ stack, Reaches s root c) →
      missingAux s fuel visited stack acc = acc := by
  intro fuel
  induction fuel with
  | zero => intro visited stack acc _; rfl
  | succ n ih =>
    intro visited stack acc hs
    cases stack with
    | nil => rfl
    | cons c rest =>
      show (if c ∈ visited then missingAux s n visited rest acc
        else if containsS s c then
          missingAux s n (c :: visited) (childrenOf s c ++ rest) acc
        else missingAux s n (c :: visited) rest (acc ++ [c])) = acc
      by_cases hv : c ∈ visited
      · rw [if_pos hv]
        exact ih visited rest acc (fun x hx => hs x (List.mem_cons_of_mem c hx))
      · rw [if_neg hv]
        have hreach : Reaches s root c := hs c (List.mem_cons_self c rest)
        have hp : containsS s c = true := hall c hreach
        rw [if_pos hp]
        refine ih (c :: visited) (childrenOf s c ++ rest) acc ?_
        intro x hx
        rcases List.mem_append.mp hx with hchild | hrest
        · exact Reaches.step hreach hp hchild
        · exact hs x (List.mem_cons_of_mem c hrest)

/-- C6: sync completeness — if the sync query for a root resolved
successfully (every CID transitively reachable from the root is locally
present, section 4.8 step 4), then missing-blocks of the root returns the
empty list. -/
theorem sync_success_no_missing (s : StoreState) (root : Cid)
    (h : syncSuccess s root) : missingBlocks s root = [] := by
  refine missingAux_no_absent s root h (gasFor s) [] [root] [] ?_
  intro c hc
  have : c = root := by simpa using hc
  subst this
  exact Reaches.refl

/-- In the one-leaf store, no CID has children. -/
theorem syncW_children (c : Cid) : childrenOf syncW c = [] := by
  have hrefs : syncW.refs = [(cA, [])] := rfl
  rw [childrenOf, hrefs]
  by_cases h : cA = c <;> simp [lookupA, h]

/-- In the one-leaf store, everything reachable from cA is present. -/
theorem syncW_success : syncSuccess syncW cA := by
  intro c h
  induction h with
  | refl => decide
  | step hr hp hc ih =>
    rw [syncW_children] at hc
    cases hc

/-- C6 witness: the one-leaf store with root cA satisfies the success
condition, and its missing-blocks list is empty. -/
theorem sync_success_no_missing_w : missingBlocks syncW cA = [] :=
  sync_success_no_missing syncW cA syncW_success

/-- C8 counterexample: in the store where A references B but no alias or
temp pin exists, the ls command invoked with the live flag prints B (the
code counts a block live whenever its referrer count is positive), yet B
does not satisfy the liveness definition of the spec, because it is not
transitively reachable from any root.  The printed category therefore
differs from the spec liveness. -/
theorem ls_live_ignores_reachability_cx :
    (lsLines sRef false true false false).map (fun t => t.2.2.2) = [cB] ∧
    liveSpecB sRef cB = false ∧ 0 < referrersOf sRef cB := by
  refine ⟨by decide, by decide, by decide⟩

set_option linter.unnecessarySeqFocus false in
/-- C8 amended: the ls command prints one line per stored block passing
the filter, where a block counts as pinned exactly when its pin count is
positive, as live exactly when its referrer count or pin count is
positive — without the reachability-from-a-root requirement of the spec
liveness definition — as dead exactly when it is not live in that sense,
and with no filter flags every block is printed. -/
theorem ls_filter_semantics (s : StoreState) (pinned live dead allFlag : Bool)
    (c : Cid) :
    c ∈ lsCids s pinned live dead allFlag ↔
      (c ∈ s.blocks.map Prod.fst ∧
        (allFlag = true ∨ (pinned = false ∧ live = false ∧ dead = false)
          ∨ (pinned = true ∧ 0 < pinsOf s c)
          ∨ (live = true ∧ (0 < referrersOf s c ∨ 0 < pinsOf s c))
          ∨ (dead = true ∧ ¬(0 < referrersOf s c ∨ 0 < pinsOf s c)))) := by
  rw [lsCids, List.mem_filter]
  cases pinned <;> cases live <;> cases dead <;> cases allFlag <;>
    simp [lsFilter, metadataOf] <;> tauto

/-- C8 amended witness: in the A-references-B store the block B is
printed under the live flag because its referrer count is positive. -/
theorem ls_filter_semantics_w : cB ∈ lsCids sRef false true false false :=
  (ls_filter_semantics sRef false true false false cB).mpr
    ⟨by decide, Or.inr (Or.inr (Or.inr (Or.inl ⟨rfl, Or.inl (by decide)⟩)))⟩

end IpfsEmbed
